import Mathlib

/-!
Verification of `CommandLineParser.h` (classes `CommandLineOption` and
`CommandLineParser`): a shallow embedding of the option-matching state
machine, the parser driver, the query API, the string splitter and the
help-text wrapping loop, together with theorems about their behaviour.

Modelling conventions:
* `std::string` is modelled as `List Char` (abbreviated `Str`).
* The process argument vector `argv[0..argc-1]` is a `List Str`; `m_argc`
  is its length.
* `exit(0)` / `exit(-1)` and the text written to `stderr` are modelled by
  the `ParseOutcome` sum together with the `exitCode` / `stderrLines`
  projections: `parse` returns instead of terminating the process.
* `size_t` subtraction (in the wrap-column computation) is modelled as
  `Int` subtraction reduced modulo `2 ^ 64`.
-/

set_option maxRecDepth 8192

abbrev Str := List Char

/-- The default-locale whitespace set used by `operator>>` on a
`std::stringstream` (space, tab, newline, vertical tab, form feed,
carriage return). -/
def isCppSpace (c : Char) : Bool :=
  c == ' ' || c == '\t' || c == '\n' || c == Char.ofNat 11 || c == Char.ofNat 12 || c == '\r'

/-- Model of `std::stringstream ss(s); ss >> tok;` — skip leading whitespace, then
take the maximal run of non-whitespace characters.  A fresh stringstream
never has `eofbit` set, so the extraction in `check` is always attempted;
a failed extraction leaves the target string empty, which `firstToken`
models by returning `[]`. -/
def firstToken (s : Str) : Str :=
  (s.dropWhile isCppSpace).takeWhile (fun c => !isCppSpace c)

/-- The fields of `class CommandLineOption` with their C++ in-class
initialisers (`m_value = ""`, `m_set = false`, `m_addSpace = 0`).
`dflt` is `m_default`. -/
structure CommandLineOption where
  arg : Str
  argAlt : Str
  desc : Str
  value : Str := []
  dflt : Str := []
  set : Bool := false
  required : Bool := false
  hasValue : Bool := true
  isSeparator : Bool := false
  addSpace : Nat := 0
deriving DecidableEq

namespace CommandLineOption

/-- Model of `CommandLineOption::check`.  Mutation of `m_set` is modelled by
returning the updated option beside the result. -/
def check (o : CommandLineOption) (arg : Str) : Bool × CommandLineOption :=
  if o.set then (false, o)
  else
    let argAltArg := firstToken o.argAlt
    let s1 : Bool := if !o.arg.isEmpty then o.arg == arg else false
    let s2 : Bool := if !s1 && !argAltArg.isEmpty then argAltArg == arg else s1
    (s2, { o with set := s2 })

/-- Model of `CommandLineOption::isSet`. -/
def isSet (o : CommandLineOption) : Bool :=
  o.set || !o.dflt.isEmpty

/-- Model of `CommandLineOption::setValue`. -/
def setValue (o : CommandLineOption) (v : Str) : CommandLineOption :=
  { o with value := v }

/-- Model of `CommandLineOption::getValue`. -/
def getValue (o : CommandLineOption) : Str :=
  if o.set then o.value else o.dflt

/-- Model of `CommandLineOption::getArgsLength`. -/
def getArgsLength (o : CommandLineOption) : Nat :=
  if o.isSeparator then 0 else (o.arg ++ [',', ' '] ++ o.argAlt).length

end CommandLineOption

/-- Model of `CommandLineOption::operator==`: equality of the declaration triple
(primary name, alternate name, description); value and state do not
participate. -/
def declEq (a b : CommandLineOption) : Bool :=
  a.arg == b.arg && a.argAlt == b.argAlt && a.desc == b.desc

/-- The matching predicate stated by the specification: the token equals
the non-empty primary name, or equals the (nonempty) first
whitespace-delimited token of the alternate-name field. -/
def checkMatches (o : CommandLineOption) (t : Str) : Bool :=
  (!o.arg.isEmpty && o.arg == t) || (!(firstToken o.argAlt).isEmpty && firstToken o.argAlt == t)

/-- Application of `check` folded over a token sequence, counting how often it returns
`true`; the option state is threaded from one call to the next exactly as
during a scan. -/
def scanTrueCount (o : CommandLineOption) : List Str → Nat
  | [] => 0
  | t :: ts => (if (o.check t).1 then 1 else 0) + scanTrueCount (o.check t).2 ts


/-- The inner loop of `CommandLineParser::parse`: one token `str` (found at
index `i` of `argv`) is offered to every option in declared order.  A
matching value-bearing option advances `i` and consumes `argv[i]` as its
value; if no token remains the parse fails fatally, naming the starved
option (`.error`).  Returns the updated options, the final token index and
the updated `anyMatch` flag. -/
def scanToken (argv : List Str) (str : Str) :
    List CommandLineOption → Nat → Bool →
    Except CommandLineOption (List CommandLineOption × Nat × Bool)
  | [], i, anyMatch => .ok ([], i, anyMatch)
  | o :: rest, i, anyMatch =>
    if (o.check str).1 then
      if (o.check str).2.hasValue then
        if i + 1 ≥ argv.length then .error (o.check str).2
        else
          match scanToken argv str rest (i + 1) true with
          | .error e => .error e
          | .ok (os, i', am) => .ok ((o.check str).2.setValue (argv.getD (i + 1) []) :: os, i', am)
      else
        match scanToken argv str rest i true with
        | .error e => .error e
        | .ok (os, i', am) => .ok ((o.check str).2 :: os, i', am)
    else
      match scanToken argv str rest i anyMatch with
      | .error e => .error e
      | .ok (os, i', am) => .ok ((o.check str).2 :: os, i', am)

/-- The outer loop of `CommandLineParser::parse`: `for (int i = 1; i < m_argc; i++)`.
`fuel` bounds the number of iterations; `parse` supplies `argv.length`,
which always suffices because the token index strictly increases at every
iteration (`scanLoop_fuel_irrelevant`), so the `fuel = 0` case is never
reached while `i < argv.length`. -/
def scanLoop (argv : List Str) : Nat → Nat → List CommandLineOption → Bool →
    Except CommandLineOption (List CommandLineOption × Bool)
  | 0, _, opts, anyMatch => .ok (opts, anyMatch)
  | fuel + 1, i, opts, anyMatch =>
    if i < argv.length then
      match scanToken argv (argv.getD i []) opts i anyMatch with
      | .error o => .error o
      | .ok (opts', i', am') => scanLoop argv fuel (i' + 1) opts' am'
    else .ok (opts, anyMatch)

/-- The stderr line `"ERROR: Option (" << getArg() << " / " << getArgAlt() << ") requires a value, but none was provided, exiting ..."`. -/
def valueMissingMsg (o : CommandLineOption) : Str :=
  "ERROR: Option (".toList ++ o.arg ++ " / ".toList ++ o.argAlt
    ++ ") requires a value, but none was provided, exiting ...".toList

/-- The stderr line `"ERROR: Required option (" << getArg() << " / " << getArgAlt() << ") not set, exiting ..."`. -/
def requiredMsg (o : CommandLineOption) : Str :=
  "ERROR: Required option (".toList ++ o.arg ++ " / ".toList ++ o.argAlt
    ++ ") not set, exiting ...".toList

/-- The required-option validation loop at the end of `parse`: walks all
options in order, emits one error line per required-but-unset option, and
computes the final `allRequiredSet` flag. -/
def requiredErrors : List CommandLineOption → List Str × Bool
  | [] => ([], true)
  | o :: rest =>
    let (msgs, ok) := requiredErrors rest
    if o.required && !o.isSet then (requiredMsg o :: msgs, false) else (msgs, ok)

/-- The options a scan leaves in the wrong state for required validation:
`option.isRequired() && !option.isSet()`. -/
def unmetRequired (opts : List CommandLineOption) : List CommandLineOption :=
  opts.filter (fun o => o.required && !o.isSet)

/-- Model of `CommandLineParser::isSet`: `std::find` by `operator==` (declaration
equality), `false` on a lookup miss. -/
def parserIsSet (opts : List CommandLineOption) (q : CommandLineOption) : Bool :=
  match opts.find? (fun o => declEq o q) with
  | none => false
  | some o => o.isSet

/-- Model of `CommandLineParser::getValue`: `""` on a lookup miss. -/
def parserGetValue (opts : List CommandLineOption) (q : CommandLineOption) : Str :=
  match opts.find? (fun o => declEq o q) with
  | none => []
  | some o => o.getValue

/-- Model of `std::getline(stream, item, delim)` iterated: each recursive step is
one successful `getline` call (take up to the delimiter, drop the
delimiter).  `getline` fails exactly when no character remains, so an
empty remainder ends the loop.  `fuel` bounds the recursion; each step
consumes at least one character, so `s.length` (supplied by
`splitString`) always suffices. -/
def getlineSplitAux (fuel : Nat) (s : Str) (d : Char) : List Str :=
  match s, fuel with
  | [], _ => []
  | _ :: _, 0 => []
  | c :: cs, fuel + 1 =>
    let s := c :: cs
    let item := s.takeWhile (fun x => x != d)
    item :: getlineSplitAux fuel (s.drop (item.length + 1)) d

/-- Model of `CommandLineParser::splitString`: split on the first character of the
delimiter string, falling back to `','` when it is empty. -/
def splitString (s : Str) (delimiter : Str) : List Str :=
  let delim : Char := match delimiter with | [] => ',' | c :: _ => c
  getlineSplitAux s.length s delim

/-- Model of `CommandLineParser::getValueList`: empty on a lookup miss, otherwise the
resolved value split on the delimiter. -/
def parserGetValueList (opts : List CommandLineOption) (q : CommandLineOption)
    (delim : Str) : List Str :=
  match opts.find? (fun o => declEq o q) with
  | none => []
  | some o => splitString o.getValue delim

/-- The separator entry pushed by `CommandLineParser::addSeparator`:
`CommandLineOption("", "", "", "", HasValue::No, Required::No, Separator::Yes)`. -/
def sepOpt : CommandLineOption :=
  { arg := [], argAlt := [], desc := [], dflt := [],
    required := false, hasValue := false, isSeparator := true }

/-- The built-in `m_helpOpt = CommandLineOption("-h", "--help", "Displays Help", HasValue::No)`. -/
def helpOptDefault : CommandLineOption :=
  { arg := "-h".toList, argAlt := "--help".toList, desc := "Displays Help".toList,
    hasValue := false }

/-- The built-in `m_verOpt = CommandLineOption("-v", "--version", "Print the version", HasValue::No)`. -/
def verOptDefault : CommandLineOption :=
  { arg := "-v".toList, argAlt := "--version".toList, desc := "Print the version".toList,
    hasValue := false }

/-- The fields of `class CommandLineParser`.  `m_argc`/`m_argv` are the
length and elements of `argv`. -/
structure CommandLineParser where
  options : List CommandLineOption := []
  argv : List Str := []
  programName : Str := []
  programVersion : Str := []
  helpOpt : CommandLineOption := helpOptDefault
  verOpt : CommandLineOption := verOptDefault

namespace CommandLineParser

/-- Model of `CommandLineParser::addOption` (`push_back`). -/
def addOption (p : CommandLineParser) (o : CommandLineOption) : CommandLineParser :=
  { p with options := p.options ++ [o] }

/-- Model of `CommandLineParser::addSeparator` (`push_back` of the separator entry). -/
def addSeparator (p : CommandLineParser) : CommandLineParser :=
  { p with options := p.options ++ [sepOpt] }

/-- Model of `CommandLineParser::addHelpOption` (`push_front`). -/
def addHelpOption (p : CommandLineParser) : CommandLineParser :=
  { p with options := p.helpOpt :: p.options }

/-- Model of `CommandLineParser::addVersionOption()` (`push_back` of `m_verOpt`). -/
def addVersionOption (p : CommandLineParser) : CommandLineParser :=
  { p with options := p.options ++ [p.verOpt] }

end CommandLineParser

/-- The four ways `CommandLineParser::parse` can leave the process, plus
normal return.  Each exiting constructor records the option state at the
moment of exit; `valueMissing` records the starved option and
`missingRequired` the error lines printed before `exit(-1)`. -/
inductive ParseOutcome where
  | valueMissing (o : CommandLineOption)
  | help (opts : List CommandLineOption)
  | version (opts : List CommandLineOption)
  | missingRequired (opts : List CommandLineOption) (errs : List Str)
  | done (opts : List CommandLineOption)
deriving DecidableEq

/-- The process exit status of each outcome: `exit(-1)` for a starved
value or missing required options, `exit(0)` after help or version
output, `none` when `parse` returns to the caller. -/
def ParseOutcome.exitCode : ParseOutcome → Option Int
  | .valueMissing _ => some (-1)
  | .help _ => some 0
  | .version _ => some 0
  | .missingRequired _ _ => some (-1)
  | .done _ => none

/-- The lines written to `std::cerr` by each outcome. -/
def ParseOutcome.stderrLines : ParseOutcome → List Str
  | .valueMissing o => [valueMissingMsg o]
  | .missingRequired _ errs => errs
  | _ => []

/-- Model of `CommandLineParser::parse`: the scan over tokens `1..argc-1`, then the
help condition `isSet(m_helpOpt) || (!anyMatch && requireMatch)`, then the
version condition, then required-option validation with batch reporting. -/
def CommandLineParser.parse (p : CommandLineParser) (requireMatch : Bool := true) :
    ParseOutcome :=
  match scanLoop p.argv p.argv.length 1 p.options false with
  | .error o => .valueMissing o
  | .ok (opts, anyMatch) =>
    if parserIsSet opts p.helpOpt || (!anyMatch && requireMatch) then .help opts
    else if parserIsSet opts p.verOpt then .version opts
    else
      let (errs, allRequiredSet) := requiredErrors opts
      if allRequiredSet then .done opts else .missingRequired opts errs

/-- The description actually wrapped by `operator<<`: `m_desc`, with
`" (required)"` appended when required and `" DEFAULT: " + m_default`
appended when a default exists. -/
def renderDesc (o : CommandLineOption) : Str :=
  let d := o.desc
  let d := if o.required then d ++ " (required)".toList else d
  if !o.dflt.isEmpty then d ++ " DEFAULT: ".toList ++ o.dflt else d

/-- The search position `maxLineLen - (spaceArgDesc + m_addSpace)` handed
to `find_last_of`.  All three operands are `size_t`, so the subtraction
wraps modulo `2 ^ 64` when `4 + addSpace > 80`. -/
def wrapBound (addSpace : Nat) : Nat :=
  (((80 : Int) - (4 + (addSpace : Int))) % (2 ^ 64 : Int)).toNat

/-- Model of `std::string::find_last_of(' ', pos)` examined from
`min pos (length - 1)` downward: the first (i.e. highest) index holding a
space. -/
def lastSpaceFrom (s : Str) : Nat → Option Nat
  | 0 => if s.getD 0 (Char.ofNat 0) == ' ' then some 0 else none
  | j + 1 => if s.getD (j + 1) (Char.ofNat 0) == ' ' then some (j + 1) else lastSpaceFrom s j

/-- Model of `find_last_of(' ', pos)`: `npos` (modelled `none`) on an empty string
or when no space occurs at an index `≤ pos`. -/
def findLastSpace (s : Str) (pos : Nat) : Option Nat :=
  if s.isEmpty then none else lastSpaceFrom s (min pos (s.length - 1))

/-- The loop condition `desc.length() + spaceArgDesc + m_addSpace > maxLineLen`. -/
def wrapGuard (addSpace : Nat) (d : Str) : Bool :=
  decide (d.length + 4 + addSpace > 80)

/-- One iteration of the wrap loop: the emitted chunk `substr(0, spacePos)`
and the remaining description `substr(spacePos + 1)`.  When no space is
found, `spacePos` is `npos = 2^64 - 1`, so `substr(0, npos)` is the whole
string and `substr(npos + 1) = substr(0)` is again the whole string: the
loop makes no progress. -/
def wrapStep (addSpace : Nat) (d : Str) : Str × Str :=
  match findLastSpace d (wrapBound addSpace) with
  | some p => (d.take p, d.drop (p + 1))
  | none => (d, d)

/-- The `while` loop of `operator<<`, producing the emitted description
chunks (the final chunk is printed after the loop).  `none` means the
given iteration budget was exhausted with the guard still true — i.e. the
loop has not terminated within `fuel` iterations. -/
def wrapLoop : Nat → Nat → Str → Option (List Str)
  | 0, addSpace, d => if wrapGuard addSpace d then none else some [d]
  | fuel + 1, addSpace, d =>
    if wrapGuard addSpace d then
      (wrapLoop fuel addSpace (wrapStep addSpace d).2).map ((wrapStep addSpace d).1 :: ·)
    else some [d]

/-- Model of `std::setw` with `std::left` and fill `' '`: pad on the right, never
truncate. -/
def padTo (s : Str) (w : Nat) : Str :=
  s ++ List.replicate (w - s.length) ' '

/-- Model of `operator<<(std::ostream&, const CommandLineOption&)`, as the list of
output lines: a separator prints one blank line; otherwise the padded
`"arg, argAlt"` column, a 4-space gutter, and the wrapped description with
continuation lines indented by `4 + m_addSpace`.  `none` when the wrap
loop fails to terminate within `fuel` iterations. -/
def renderOption (fuel : Nat) (o : CommandLineOption) : Option (List Str) :=
  if o.isSeparator then some [[]]
  else
    let head := padTo (o.arg ++ [',', ' '] ++ o.argAlt) o.addSpace ++ List.replicate 4 ' '
    (wrapLoop fuel o.addSpace (renderDesc o)).map (fun ls =>
      match ls with
      | [] => []
      | l :: rest => (head ++ l) :: rest.map (fun r => List.replicate (4 + o.addSpace) ' ' ++ r))

/-- Non-termination of the rendering of `o`: no iteration budget makes the
wrap loop finish. -/
def renderDiverges (o : CommandLineOption) : Prop :=
  ∀ fuel : Nat, renderOption fuel o = none

/-- A non-separator option whose 100-character description contains no
space: its single would-be help line exceeds the 80-column budget, and
`find_last_of` cannot find a break point. -/
def spacelessOpt : CommandLineOption :=
  { arg := "-x".toList, argAlt := "--xxx".toList, desc := List.replicate 100 'x',
    hasValue := false }

/-- The specification example option `-f`/`--file`: value-bearing and
required. -/
def fileOpt : CommandLineOption :=
  { arg := "-f".toList, argAlt := "--file".toList, desc := "input file".toList,
    required := true }

/-- The specification example option `-g`: value-bearing, not required. -/
def gOpt : CommandLineOption :=
  { arg := "-g".toList, argAlt := "--gee".toList, desc := "g option".toList }

/-- An option carrying a non-empty default value and matching no example
token. -/
def dfltOpt : CommandLineOption :=
  { arg := "-d".toList, argAlt := "--dee".toList, desc := "d option".toList,
    dflt := "42".toList }

/-- A parser declaring only `-f`/`--file` and given the starved input
`["prog", "-f"]`. -/
def starvedParser : CommandLineParser :=
  { options := [fileOpt], argv := ["prog".toList, "-f".toList] }

/-- A parser declaring the required `-f`/`--file` and given the input
`["prog"]`, which matches nothing. -/
def noMatchParser : CommandLineParser :=
  { options := [fileOpt], argv := ["prog".toList] }

/-- A parser declaring `-f` (required) and `-g` (not required) and given
the input `["prog", "-g", "x"]`: `-g` matches but `-f` stays unset. -/
def missingReqParser : CommandLineParser :=
  { options := [fileOpt, gOpt], argv := ["prog".toList, "-g".toList, "x".toList] }

/-- A non-separator option whose long description has spaces before each
column budget, so the wrap loop always finds a break point. -/
def wrapOpt : CommandLineOption :=
  { arg := "-w".toList, argAlt := "--wrap".toList,
    desc := "The quick brown fox jumps over the lazy dog while the parser wraps this long description text".toList,
    hasValue := false }


theorem check_eq (o : CommandLineOption) (t : Str) :
    o.check t = (!o.set && checkMatches o t,
      { o with set := o.set || (!o.set && checkMatches o t) }) := by
  obtain ⟨arg, argAlt, desc, value, dflt, set, required, hasValue, isSeparator, addSpace⟩ := o
  simp only [CommandLineOption.check, checkMatches]
  cases set
  · simp only [Bool.not_false, Bool.true_and, Bool.false_or, if_false, Bool.false_eq_true,
      ite_false]
    cases harg : arg.isEmpty <;>
      cases halt : (firstToken argAlt).isEmpty <;>
        cases he1 : arg == t <;>
          cases he2 : firstToken argAlt == t <;>
            simp [harg, halt, he1, he2]
  · simp

theorem check_of_set (o : CommandLineOption) (t : Str) (h : o.set = true) :
    o.check t = (false, o) := by
  simp [CommandLineOption.check, h]

theorem check_false_id (o : CommandLineOption) (t : Str) (h : (o.check t).1 = false) :
    (o.check t).2 = o := by
  rw [check_eq] at h ⊢
  simp only at h
  simp [h]

theorem check_of_match (o : CommandLineOption) (t : Str) (hset : o.set = false)
    (hm : checkMatches o t = true) : o.check t = (true, { o with set := true }) := by
  rw [check_eq, hset, hm]
  simp

theorem check_of_nomatch (o : CommandLineOption) (t : Str) (hset : o.set = false)
    (hm : checkMatches o t = false) : o.check t = (false, o) := by
  obtain ⟨arg, argAlt, desc, value, dflt, set, required, hasValue, isSeparator, addSpace⟩ := o
  subst hset
  rw [check_eq, hm]
  simp

theorem check_fst (o : CommandLineOption) (t : Str) :
    (o.check t).1 = (!o.set && checkMatches o t) := by
  rw [check_eq]

theorem check_snd_set (o : CommandLineOption) (t : Str) :
    (o.check t).2.set = (o.set || (o.check t).1) := by
  rw [check_eq]

theorem scanTrueCount_of_set (o : CommandLineOption) (h : o.set = true) :
    ∀ ts : List Str, scanTrueCount o ts = 0 := by
  intro ts
  induction ts with
  | nil => rfl
  | cons t ts ih =>
    simp [scanTrueCount, check_of_set o t h, ih]

theorem scanTrueCount_le_one (o : CommandLineOption) (ts : List Str) :
    scanTrueCount o ts ≤ 1 := by
  induction ts generalizing o with
  | nil => simp [scanTrueCount]
  | cons t ts ih =>
    simp only [scanTrueCount]
    cases h : (o.check t).1
    · simpa using ih (o.check t).2
    · have hs : (o.check t).2.set = true := by
        rw [check_snd_set, h, Bool.or_true]
      simp [scanTrueCount_of_set _ hs]
theorem scanToken_i_le (argv : List Str) (str : Str) :
    ∀ (opts : List CommandLineOption) (i : Nat) (am : Bool)
      (opts' : List CommandLineOption) (i' : Nat) (am' : Bool),
      scanToken argv str opts i am = .ok (opts', i', am') → i ≤ i' := by
  intro opts
  induction opts with
  | nil =>
    intro i am opts' i' am' h
    simp only [scanToken, Except.ok.injEq, Prod.mk.injEq] at h
    omega
  | cons o rest ih =>
    intro i am opts' i' am' h
    simp only [scanToken] at h
    split at h
    · split at h
      · split at h
        · simp at h
        · split at h
          · simp at h
          · rename_i os i₂ am₂ heq
            simp only [Except.ok.injEq, Prod.mk.injEq] at h
            obtain ⟨-, h2, -⟩ := h
            have := ih (i + 1) true os i₂ am₂ heq
            omega
      · split at h
        · simp at h
        · rename_i os i₂ am₂ heq
          simp only [Except.ok.injEq, Prod.mk.injEq] at h
          obtain ⟨-, h2, -⟩ := h
          have := ih i true os i₂ am₂ heq
          omega
    · split at h
      · simp at h
      · rename_i os i₂ am₂ heq
        simp only [Except.ok.injEq, Prod.mk.injEq] at h
        obtain ⟨-, h2, -⟩ := h
        have := ih i am os i₂ am₂ heq
        omega

theorem scanLoop_ge (argv : List Str) (fuel i : Nat) (opts : List CommandLineOption)
    (am : Bool) (h : argv.length ≤ i) :
    scanLoop argv fuel i opts am = .ok (opts, am) := by
  cases fuel with
  | zero => rfl
  | succ fuel => simp [scanLoop, Nat.not_lt.mpr h]

/-- The fuel argument of `scanLoop` is irrelevant as soon as it covers the
number of remaining tokens; in particular `parse`'s choice
`fuel = argv.length` computes the exact semantics of the C++ loop. -/
theorem scanLoop_fuel_irrelevant (argv : List Str) :
    ∀ (fuel₁ fuel₂ i : Nat) (opts : List CommandLineOption) (am : Bool),
      argv.length - i ≤ fuel₁ → argv.length - i ≤ fuel₂ →
      scanLoop argv fuel₁ i opts am = scanLoop argv fuel₂ i opts am := by
  intro fuel₁
  induction fuel₁ with
  | zero =>
    intro fuel₂ i opts am h₁ h₂
    have hge : argv.length ≤ i := by omega
    rw [scanLoop_ge argv 0 i opts am hge, scanLoop_ge argv fuel₂ i opts am hge]
  | succ f ih =>
    intro fuel₂ i opts am h₁ h₂
    by_cases hlt : i < argv.length
    · cases fuel₂ with
      | zero => omega
      | succ g =>
        simp only [scanLoop, if_pos hlt]
        cases hsc : scanToken argv (argv.getD i []) opts i am with
        | error o => rfl
        | ok t =>
          obtain ⟨opts', i', am'⟩ := t
          have hle := scanToken_i_le argv _ opts i am opts' i' am' hsc
          exact ih g (i' + 1) opts' am' (by omega) (by omega)
    · have hge := Nat.not_lt.mp hlt
      rw [scanLoop_ge argv _ i opts am hge, scanLoop_ge argv fuel₂ i opts am hge]

theorem scanToken_of_nomatch (argv : List Str) (str : Str) :
    ∀ (opts : List CommandLineOption) (i : Nat) (am : Bool),
      (∀ x ∈ opts, (x.check str).1 = false) →
      scanToken argv str opts i am = .ok (opts, i, am) := by
  intro opts
  induction opts with
  | nil => intro i am _; rfl
  | cons o rest ih =>
    intro i am h
    have ho := h o (by simp)
    simp only [scanToken, ho, Bool.false_eq_true, if_false]
    rw [ih i am (fun x hx => h x (by simp [hx]))]
    rw [check_false_id o str ho]

theorem scanToken_append_nomatch (argv : List Str) (str : Str) :
    ∀ (pre rest : List CommandLineOption) (i : Nat) (am : Bool),
      (∀ x ∈ pre, (x.check str).1 = false) →
      scanToken argv str (pre ++ rest) i am =
        match scanToken argv str rest i am with
        | .error e => .error e
        | .ok (os, i', am') => .ok (pre ++ os, i', am') := by
  intro pre
  induction pre with
  | nil =>
    intro rest i am _
    simp only [List.nil_append]
    cases scanToken argv str rest i am with
    | error e => rfl
    | ok t => obtain ⟨os, i', am'⟩ := t; rfl
  | cons q pre ih =>
    intro rest i am h
    have hq := h q (by simp)
    simp only [List.cons_append, scanToken, hq, Bool.false_eq_true, if_false]
    simp only [List.append_eq]
    rw [ih rest i am (fun x hx => h x (by simp [hx]))]
    rw [check_false_id q str hq]
    cases scanToken argv str rest i am with
    | error e => rfl
    | ok t => obtain ⟨os, i', am'⟩ := t; rfl

theorem requiredErrors_eq (opts : List CommandLineOption) :
    requiredErrors opts
      = ((unmetRequired opts).map requiredMsg, (unmetRequired opts).isEmpty) := by
  induction opts with
  | nil => rfl
  | cons o rest ih =>
    simp only [requiredErrors, ih, unmetRequired, List.filter_cons]
    cases hc : o.required && !o.isSet
    · simp [hc]
    · simp [hc]

theorem find?_congr_triple {p₁ p₂ : CommandLineOption → Bool}
    (h : ∀ a, p₁ a = p₂ a) :
    ∀ l : List CommandLineOption, l.find? p₁ = l.find? p₂ := by
  intro l
  induction l with
  | nil => rfl
  | cons a l ih =>
    rw [List.find?_cons, List.find?_cons, h a]
    cases p₂ a <;> simp [ih]

/-- An option whose `check` against the current token returns `false`
keeps its place (and its state) across the inner scan loop: the scan of
one token maps `pre ++ o :: post` either to a fatal error or to
`pre' ++ o :: post'`. -/
theorem scanToken_mid (argv : List Str) (str : Str) :
    ∀ (pre : List CommandLineOption) (post : List CommandLineOption)
      (o : CommandLineOption) (i : Nat) (am : Bool),
      (o.check str).1 = false →
      (∃ e, scanToken argv str (pre ++ o :: post) i am = .error e) ∨
      (∃ pre' post' i' am',
        scanToken argv str (pre ++ o :: post) i am = .ok (pre' ++ o :: post', i', am')) := by
  intro pre
  induction pre with
  | nil =>
    intro post o i am ho
    simp only [List.nil_append, scanToken, ho, Bool.false_eq_true, if_false]
    cases hrec : scanToken argv str post i am with
    | error e => exact .inl ⟨e, rfl⟩
    | ok t =>
      obtain ⟨os, i', am'⟩ := t
      refine .inr ⟨[], os, i', am', ?_⟩
      rw [check_false_id o str ho]
      rfl
  | cons q pre ih =>
    intro post o i am ho
    simp only [List.cons_append, scanToken, List.append_eq]
    cases hq : (q.check str).1 with
    | true =>
      simp only [if_true]
      cases hv : (q.check str).2.hasValue with
      | true =>
        simp only [if_true]
        by_cases hb : i + 1 ≥ argv.length
        · simp only [if_pos hb]
          exact .inl ⟨(q.check str).2, rfl⟩
        · simp only [if_neg hb]
          rcases ih post o (i + 1) true ho with ⟨e, he⟩ | ⟨pre', post', i', am', hok⟩
          · rw [he]
            exact .inl ⟨e, rfl⟩
          · rw [hok]
            exact .inr ⟨(q.check str).2.setValue (argv.getD (i + 1) []) :: pre', post', i', am', rfl⟩
      | false =>
        simp only [Bool.false_eq_true, if_false]
        rcases ih post o i true ho with ⟨e, he⟩ | ⟨pre', post', i', am', hok⟩
        · rw [he]
          exact .inl ⟨e, rfl⟩
        · rw [hok]
          exact .inr ⟨(q.check str).2 :: pre', post', i', am', rfl⟩
    | false =>
      simp only [Bool.false_eq_true, if_false]
      rcases ih post o i am ho with ⟨e, he⟩ | ⟨pre', post', i', am', hok⟩
      · rw [he]
        exact .inl ⟨e, rfl⟩
      · rw [hok]
        exact .inr ⟨(q.check str).2 :: pre', post', i', am', rfl⟩

/-- An option that matches no token of the argument vector (and starts
unset) survives the whole scan unchanged, wherever it sits in the
collection. -/
theorem scanLoop_mid (argv : List Str) :
    ∀ (fuel i : Nat) (pre post : List CommandLineOption) (o : CommandLineOption)
      (am : Bool) (opts' : List CommandLineOption) (am' : Bool),
      o.set = false →
      (∀ t ∈ argv, checkMatches o t = false) →
      scanLoop argv fuel i (pre ++ o :: post) am = .ok (opts', am') →
      ∃ pre' post', opts' = pre' ++ o :: post' := by
  intro fuel
  induction fuel with
  | zero =>
    intro i pre post o am opts' am' hset hnm h
    simp only [scanLoop, Except.ok.injEq, Prod.mk.injEq] at h
    exact ⟨pre, post, h.1.symm⟩
  | succ fuel ih =>
    intro i pre post o am opts' am' hset hnm h
    by_cases hlt : i < argv.length
    · have hmem : argv.getD i [] ∈ argv := by
        rw [List.getD_eq_getElem argv [] hlt]
        exact List.getElem_mem hlt
      have ho : (o.check (argv.getD i [])).1 = false := by
        rw [check_fst, hset, hnm _ hmem]
        rfl
      simp only [scanLoop, if_pos hlt] at h
      rcases scanToken_mid argv (argv.getD i []) pre post o i am ho with
        ⟨e, he⟩ | ⟨pre₁, post₁, i₁, am₁, hok⟩
      · rw [he] at h
        simp at h
      · rw [hok] at h
        exact ih (i₁ + 1) pre₁ post₁ o am₁ opts' am' hset hnm h
    · simp only [scanLoop, if_neg hlt, Except.ok.injEq, Prod.mk.injEq] at h
      exact ⟨pre, post, h.1.symm⟩

/-- The inner loop at the unique matching, value-bearing option: the pre
options fail, `o` matches and consumes `argv[i+1]`, the post options fail
against the same token, and the final index is `i + 1` with
`anyMatch = true`. -/
theorem scanToken_match_value (argv : List Str) (str : Str)
    (pre post : List CommandLineOption) (o : CommandLineOption) (i : Nat) (am : Bool)
    (hpre : ∀ x ∈ pre, (x.check str).1 = false)
    (hset : o.set = false) (hm : checkMatches o str = true) (hv : o.hasValue = true)
    (hpost : ∀ x ∈ post, (x.check str).1 = false)
    (hb : i + 1 < argv.length) :
    scanToken argv str (pre ++ o :: post) i am =
      .ok (pre ++ ({ o with set := true, value := argv.getD (i + 1) [] }) :: post,
        i + 1, true) := by
  rw [scanToken_append_nomatch argv str pre (o :: post) i am hpre]
  have hnl : ¬ i + 1 ≥ argv.length := by omega
  have h1 : scanToken argv str (o :: post) i am
      = .ok (({ o with set := true, value := argv.getD (i + 1) [] }) :: post, i + 1, true) := by
    simp only [scanToken, check_of_match o str hset hm]
    simp [hv, hnl, scanToken_of_nomatch argv str post (i + 1) true hpost,
      CommandLineOption.setValue]
  rw [h1]

/-- The inner loop at a matching, value-bearing option sitting at the last
index of the argument vector: the parse fails fatally, returning the
starved option. -/
theorem scanToken_match_starved (argv : List Str) (str : Str)
    (pre post : List CommandLineOption) (o : CommandLineOption) (i : Nat) (am : Bool)
    (hpre : ∀ x ∈ pre, (x.check str).1 = false)
    (hset : o.set = false) (hm : checkMatches o str = true) (hv : o.hasValue = true)
    (hb : i + 1 ≥ argv.length) :
    scanToken argv str (pre ++ o :: post) i am = .error ({ o with set := true }) := by
  rw [scanToken_append_nomatch argv str pre (o :: post) i am hpre]
  have h1 : scanToken argv str (o :: post) i am = .error ({ o with set := true }) := by
    simp only [scanToken, check_of_match o str hset hm]
    simp [hv, hb]
  rw [h1]

/-- C1: over the argument vector `[prog, t, v]`, the scan visits token
`t` (index 1), gives every option in declared order a chance to check it,
and — exactly one value-bearing option `o` matching `t` — consumes the
immediately following token `v` as `o`'s captured value, after which
`isSet` on that option is true and `getValue` returns `v`.  The
surrounding options (before and after `o` in declaration order) are
offered the token and decline it. -/
theorem C1_scan_consumes_following_token
    (pre post : List CommandLineOption) (o : CommandLineOption) (p t v : Str)
    (hpre : ∀ x ∈ pre, (x.check t).1 = false)
    (hpost : ∀ x ∈ post, (x.check t).1 = false)
    (hset : o.set = false) (hm : checkMatches o t = true) (hv : o.hasValue = true) :
    scanLoop [p, t, v] 3 1 (pre ++ o :: post) false
        = .ok (pre ++ ({ o with set := true, value := v }) :: post, true)
      ∧ ({ o with set := true, value := v } : CommandLineOption).isSet = true
      ∧ ({ o with set := true, value := v } : CommandLineOption).getValue = v := by
  refine ⟨?_, by simp [CommandLineOption.isSet], by simp [CommandLineOption.getValue]⟩
  have hscan := scanToken_match_value [p, t, v] t pre post o 1 false hpre hset hm hv hpost
    (by simp)
  have e1 : scanLoop [p, t, v] 3 1 (pre ++ o :: post) false
      = match scanToken [p, t, v] t (pre ++ o :: post) 1 false with
        | .error e => .error e
        | .ok (opts', i', am') => scanLoop [p, t, v] 2 (i' + 1) opts' am' := rfl
  rw [e1, hscan]
  exact scanLoop_ge [p, t, v] 2 (1 + 1 + 1) _ true (by simp)

/-- Witness for C1: the specification's example — option `-f`/`--file`
(value-bearing, required) and input `["prog", "-f", "in.txt"]` — captures
`"in.txt"`. -/
theorem C1_scan_consumes_following_token_witness :
    scanLoop ["prog".toList, "-f".toList, "in.txt".toList] 3 1 ([] ++ fileOpt :: []) false
        = .ok ([] ++ ({ fileOpt with set := true, value := "in.txt".toList }) :: [], true)
      ∧ ({ fileOpt with set := true, value := "in.txt".toList }).isSet = true
      ∧ ({ fileOpt with set := true, value := "in.txt".toList }).getValue = "in.txt".toList :=
  C1_scan_consumes_following_token [] [] fileOpt
    "prog".toList "-f".toList "in.txt".toList
    (by decide) (by decide) (by decide) (by decide) (by decide)

/-- C2: `check` is a one-shot mutating predicate — on an already-set
option it returns `false` and changes nothing; otherwise it returns true
iff the token equals the non-empty primary name or the first
whitespace-delimited token of the alternate-name field, and it records the
match in `set` exactly when it returns true.  Consequently, across any
token sequence of an argument scan, it returns `true` at most once. -/
theorem C2_check_one_shot (o : CommandLineOption) (t : Str) (ts : List Str) :
    o.check t = (!o.set && checkMatches o t,
        { o with set := o.set || (!o.set && checkMatches o t) })
      ∧ scanTrueCount o ts ≤ 1 :=
  ⟨check_eq o t, scanTrueCount_le_one o ts⟩

/-- C10: the entry pushed by `addSeparator` (empty names, no value) never
matches any token, stays unset, passes every token through unchanged
(consuming nothing and leaving index and `anyMatch` untouched), and never
fires required-option validation. -/
theorem C10_separator_inert (p : CommandLineParser) (t str : Str) (ts : List Str)
    (argv : List Str) (opts : List CommandLineOption) (i : Nat) (am : Bool) :
    (CommandLineParser.addSeparator p).options = p.options ++ [sepOpt]
      ∧ sepOpt.check t = (false, sepOpt)
      ∧ sepOpt.required = false
      ∧ sepOpt.isSet = false
      ∧ scanTrueCount sepOpt ts = 0
      ∧ unmetRequired (sepOpt :: opts) = unmetRequired opts
      ∧ scanToken argv str (sepOpt :: opts) i am
          = match scanToken argv str opts i am with
            | .error e => .error e
            | .ok (os, i', am') => .ok (sepOpt :: os, i', am') := by
  refine ⟨rfl, check_of_nomatch sepOpt t rfl rfl, rfl, rfl, ?_, ?_, ?_⟩
  · induction ts with
    | nil => rfl
    | cons u ts ih => simp [scanTrueCount, check_of_nomatch sepOpt u rfl rfl, ih]
  · simp only [unmetRequired, List.filter_cons]
    rw [show (sepOpt.required && !sepOpt.isSet) = false from rfl]
    simp
  · have hc : (sepOpt.check str).1 = false := by
      rw [check_of_nomatch sepOpt str rfl rfl]
    have h := scanToken_append_nomatch argv str [sepOpt] opts i am
      (by intro x hx; simp only [List.mem_singleton] at hx; subst hx; exact hc)
    simp only [List.singleton_append] at h
    exact h

/-- When no option matches any token before the last one, the outer loop
walks to the last index with the collection and `anyMatch` unchanged, and
the overall result is decided by the scan of the last token. -/
theorem scanLoop_tail (argv : List Str) :
    ∀ (fuel i : Nat) (opts : List CommandLineOption) (am : Bool),
      i < argv.length → argv.length - i ≤ fuel →
      (∀ j, i ≤ j → j + 1 < argv.length →
        ∀ x ∈ opts, (x.check (argv.getD j [])).1 = false) →
      scanLoop argv fuel i opts am =
        match scanToken argv (argv.getD (argv.length - 1) []) opts (argv.length - 1) am with
        | .error e => .error e
        | .ok (opts', _, am') => .ok (opts', am') := by
  intro fuel
  induction fuel with
  | zero =>
    intro i opts am hi hf _
    omega
  | succ fuel ih =>
    intro i opts am hi hf hnm
    by_cases hlast : i = argv.length - 1
    · subst hlast
      simp only [scanLoop, if_pos hi]
      cases hsc : scanToken argv (argv.getD (argv.length - 1) []) opts (argv.length - 1) am with
      | error e => rfl
      | ok t =>
        obtain ⟨opts', i', am'⟩ := t
        have hle := scanToken_i_le argv _ opts _ am opts' i' am' hsc
        exact scanLoop_ge argv fuel (i' + 1) opts' am' (by omega)
    · have hj : i + 1 < argv.length := by omega
      have hstep := scanToken_of_nomatch argv (argv.getD i []) opts i am
        (hnm i (Nat.le_refl i) hj)
      simp only [scanLoop, if_pos hi]
      rw [hstep]
      exact ih (i + 1) opts am (by omega) (by omega)
        (fun j hji hj1 x hx => hnm j (by omega) hj1 x hx)

/-- C3: when a value-bearing option matches the last token of the
argument vector (no earlier token matching anything), parse fails
fatally: the outcome is `valueMissing` for that option, the process exit
status is `-1` (non-zero), and the single `stderr` line names the option
by its primary and alternate names. -/
theorem C3_value_starved
    (front : List Str) (t : Str) (pre post : List CommandLineOption)
    (o : CommandLineOption) (ps : CommandLineParser) (rm : Bool)
    (hargv : ps.argv = front ++ [t]) (hopts : ps.options = pre ++ o :: post)
    (hfront : front ≠ [])
    (hfrontnm : ∀ u ∈ front, ∀ x ∈ pre ++ o :: post, (x.check u).1 = false)
    (hpre : ∀ x ∈ pre, (x.check t).1 = false)
    (hset : o.set = false) (hm : checkMatches o t = true) (hv : o.hasValue = true) :
    ps.parse rm = .valueMissing ({ o with set := true })
      ∧ (ps.parse rm).exitCode = some (-1)
      ∧ (ps.parse rm).exitCode ≠ some 0
      ∧ (ps.parse rm).stderrLines = [valueMissingMsg o] := by
  have hfl : 1 ≤ front.length := by
    cases front with
    | nil => exact absurd rfl hfront
    | cons a l => simp
  have hlen : ps.argv.length = front.length + 1 := by rw [hargv]; simp
  have hlast : ps.argv.getD (ps.argv.length - 1) [] = t := by
    rw [hargv]
    have : (front ++ [t]).length - 1 = front.length := by simp
    rw [this, List.getD_eq_getElem _ _ (by simp)]
    simp
  have hnm : ∀ j, 1 ≤ j → j + 1 < ps.argv.length →
      ∀ x ∈ ps.options, (x.check (ps.argv.getD j [])).1 = false := by
    intro j hj hj1 x hx
    have hjlt : j < front.length := by omega
    have hgd : ps.argv.getD j [] = front.getD j [] := by
      rw [hargv]
      exact List.getD_append _ _ _ _ hjlt
    have hmem : front.getD j [] ∈ front := by
      rw [List.getD_eq_getElem front [] hjlt]
      exact List.getElem_mem hjlt
    rw [hgd]
    rw [hopts] at hx
    exact hfrontnm _ hmem x hx
  have htail := scanLoop_tail ps.argv ps.argv.length 1 ps.options false
    (by omega) (by omega) hnm
  have hstarv := scanToken_match_starved ps.argv t pre post o (ps.argv.length - 1) false
    hpre hset hm hv (by omega)
  have hscan : scanLoop ps.argv ps.argv.length 1 ps.options false
      = .error ({ o with set := true }) := by
    rw [htail, hlast, hopts, hstarv]
  have hp : ps.parse rm = .valueMissing ({ o with set := true }) := by
    unfold CommandLineParser.parse
    rw [hscan]
  refine ⟨hp, by rw [hp]; rfl, ?_, by rw [hp]; rfl⟩
  rw [hp]
  simp [ParseOutcome.exitCode]

/-- Witness for C3: the specification's example `["prog", "-f"]` with the
value-bearing required option `-f`/`--file` as the last token. -/
theorem C3_value_starved_witness :
    starvedParser.parse true = .valueMissing ({ fileOpt with set := true })
      ∧ (starvedParser.parse true).exitCode = some (-1)
      ∧ (starvedParser.parse true).exitCode ≠ some 0
      ∧ (starvedParser.parse true).stderrLines = [valueMissingMsg fileOpt] :=
  C3_value_starved ["prog".toList] "-f".toList [] [] fileOpt starvedParser true
    rfl rfl (by decide) (by decide) (by decide) (by decide) (by decide) (by decide)

/-- C4: whenever the scan ends with the help option set, or with no match
at all while a match is required, `parse` takes the help path and the
process terminates with exit status `0` — regardless of the state of
required options, so this path has precedence over required-option
validation. -/
theorem C4_help_precedence
    (ps : CommandLineParser) (rm : Bool) (opts' : List CommandLineOption) (am : Bool)
    (hscan : scanLoop ps.argv ps.argv.length 1 ps.options false = .ok (opts', am))
    (hcond : (parserIsSet opts' ps.helpOpt || (!am && rm)) = true) :
    ps.parse rm = .help opts' ∧ (ps.parse rm).exitCode = some 0 := by
  have hp : ps.parse rm = .help opts' := by
    unfold CommandLineParser.parse
    rw [hscan]
    simp [hcond]
  exact ⟨hp, by rw [hp]; rfl⟩

/-- Witness for C4: the specification's example — the required option
`-f`/`--file` declared and input `["prog"]` with `requireMatch = true`
prints help and exits 0 (instead of failing on the missing required
option). -/
theorem C4_help_precedence_witness :
    scanLoop noMatchParser.argv noMatchParser.argv.length 1 noMatchParser.options false
        = .ok ([fileOpt], false)
      ∧ (parserIsSet [fileOpt] noMatchParser.helpOpt || (!false && true)) = true
      ∧ noMatchParser.parse true = .help [fileOpt]
      ∧ (noMatchParser.parse true).exitCode = some 0 :=
  ⟨by rfl, by decide,
    C4_help_precedence noMatchParser true [fileOpt] false (by rfl) (by decide)⟩

/-- C5: when neither the help path nor the version path is taken, every
declared option that is required and not set yields one `stderr` line
naming it — all of them reported, in declaration order — and the process
exits with `-1` iff at least one required option is unset (returning
normally otherwise).  The `anyMatch` flag plays no role here, so the
validation fires even when some other option matched. -/
theorem C5_required_batch
    (ps : CommandLineParser) (rm : Bool) (opts' : List CommandLineOption) (am : Bool)
    (hscan : scanLoop ps.argv ps.argv.length 1 ps.options false = .ok (opts', am))
    (hnohelp : (parserIsSet opts' ps.helpOpt || (!am && rm)) = false)
    (hnover : parserIsSet opts' ps.verOpt = false) :
    (unmetRequired opts' = [] → ps.parse rm = .done opts'
        ∧ (ps.parse rm).exitCode = none)
      ∧ (unmetRequired opts' ≠ [] →
          ps.parse rm = .missingRequired opts' ((unmetRequired opts').map requiredMsg)
            ∧ (ps.parse rm).stderrLines = (unmetRequired opts').map requiredMsg
            ∧ (ps.parse rm).exitCode = some (-1)) := by
  have hbase : ps.parse rm
      = (if (unmetRequired opts').isEmpty then ParseOutcome.done opts'
          else ParseOutcome.missingRequired opts' ((unmetRequired opts').map requiredMsg)) := by
    unfold CommandLineParser.parse
    rw [hscan]
    simp only [hnohelp, Bool.false_eq_true, if_false, hnover]
    rw [requiredErrors_eq]
  constructor
  · intro h
    have hp : ps.parse rm = .done opts' := by
      rw [hbase, h]
      rfl
    exact ⟨hp, by rw [hp]; rfl⟩
  · intro h
    have hie : (unmetRequired opts').isEmpty = false := by
      cases hu : unmetRequired opts' with
      | nil => exact absurd hu h
      | cons a l => rfl
    have hp : ps.parse rm
        = .missingRequired opts' ((unmetRequired opts').map requiredMsg) := by
      rw [hbase, hie]
      rfl
    exact ⟨hp, by rw [hp]; rfl, by rw [hp]; rfl⟩

/-- Witness for C5: the specification's example — `-f` (required) and
`-g` (not required) with input `["prog", "-g", "x"]`: `-g` matched
(`anyMatch = true`), yet `-f` is reported missing and the process exits
`-1`. -/
theorem C5_required_batch_witness :
    scanLoop missingReqParser.argv missingReqParser.argv.length 1
        missingReqParser.options false
        = .ok ([fileOpt, { gOpt with set := true, value := "x".toList }], true)
      ∧ unmetRequired [fileOpt, { gOpt with set := true, value := "x".toList }] ≠ []
      ∧ missingReqParser.parse true
          = .missingRequired [fileOpt, { gOpt with set := true, value := "x".toList }]
              [requiredMsg fileOpt]
      ∧ (missingReqParser.parse true).stderrLines = [requiredMsg fileOpt]
      ∧ (missingReqParser.parse true).exitCode = some (-1) :=
  ⟨by rfl, by decide,
    ((C5_required_batch missingReqParser true
        [fileOpt, { gOpt with set := true, value := "x".toList }] true
        (by rfl) (by decide) (by decide)).2 (by decide))⟩

/-- C6: an option with a non-empty default that matches no token of the
scan comes out of the scan unchanged, with `isSet()` true and
`getValue()` equal to the default; and in general `isSet()` is true iff
the option was matched or its default is non-empty, while `getValue()`
returns the captured value when matched and the default otherwise (so the
empty string when neither exists). -/
theorem C6_default_semantics
    (argv : List Str) (fuel : Nat) (pre post : List CommandLineOption)
    (o : CommandLineOption) (opts' : List CommandLineOption) (am' : Bool)
    (hset : o.set = false) (hd : o.dflt ≠ [])
    (hnm : ∀ u ∈ argv, checkMatches o u = false)
    (hscan : scanLoop argv fuel 1 (pre ++ o :: post) false = .ok (opts', am')) :
    (∃ pre' post', opts' = pre' ++ o :: post')
      ∧ o.isSet = true
      ∧ o.getValue = o.dflt
      ∧ (∀ q : CommandLineOption,
          (q.isSet = true ↔ (q.set = true ∨ q.dflt ≠ []))
            ∧ (q.set = true → q.getValue = q.value)
            ∧ (q.set = false → q.getValue = q.dflt)
            ∧ (q.set = false → q.dflt = [] → q.getValue = [])) := by
  refine ⟨scanLoop_mid argv fuel 1 pre post o false opts' am' hset hnm hscan, ?_, ?_, ?_⟩
  · cases hdl : o.dflt with
    | nil => exact absurd hdl hd
    | cons c l => simp [CommandLineOption.isSet, hset, hdl]
  · simp [CommandLineOption.getValue, hset]
  · intro q
    refine ⟨?_, ?_, ?_, ?_⟩
    · constructor
      · intro hq
        by_cases hqs : q.set = true
        · exact Or.inl hqs
        · right
          rw [CommandLineOption.isSet, Bool.eq_false_iff.mpr hqs] at hq
          simp only [Bool.false_or, Bool.not_eq_true'] at hq
          intro hnil
          rw [hnil] at hq
          simp at hq
      · intro hq
        rcases hq with hq | hq
        · simp [CommandLineOption.isSet, hq]
        · cases hdl : q.dflt with
          | nil => exact absurd hdl hq
          | cons c l => simp [CommandLineOption.isSet, hdl]
    · intro hq; simp [CommandLineOption.getValue, hq]
    · intro hq; simp [CommandLineOption.getValue, hq]
    · intro hq hnil; simp [CommandLineOption.getValue, hq, hnil]

/-- Witness for C6: the default-carrying option `-d` never appears on the
command line `["prog", "-q"]`, yet after the scan it is set with value
`"42"`. -/
theorem C6_default_semantics_witness :
    ((∃ pre' post', [dfltOpt] = pre' ++ dfltOpt :: post')
      ∧ dfltOpt.isSet = true
      ∧ dfltOpt.getValue = dfltOpt.dflt
      ∧ (∀ q : CommandLineOption,
          (q.isSet = true ↔ (q.set = true ∨ q.dflt ≠ []))
            ∧ (q.set = true → q.getValue = q.value)
            ∧ (q.set = false → q.getValue = q.dflt)
            ∧ (q.set = false → q.dflt = [] → q.getValue = []))) :=
  C6_default_semantics ["prog".toList, "-q".toList] 2 [] [] dfltOpt [dfltOpt] false
    (by decide) (by decide) (by decide) (by rfl)

/-- C7: the post-parse queries compare the supplied declaration to the
registered options by the (primary, alternate, description) triple only —
any separately constructed option with an identical triple resolves to
the same live registered instance and yields its `isSet`/`getValue`
results — and a query for a declaration no registered option equals
returns `false` / the empty string / the empty list instead of failing. -/
theorem C7_query_by_declaration
    (opts : List CommandLineOption) (q q' : CommandLineOption) (d : Str)
    (ha : q.arg = q'.arg) (hb : q.argAlt = q'.argAlt) (hc : q.desc = q'.desc) :
    parserIsSet opts q = parserIsSet opts q'
      ∧ parserGetValue opts q = parserGetValue opts q'
      ∧ parserGetValueList opts q d = parserGetValueList opts q' d
      ∧ ((∀ x ∈ opts, declEq x q = false) →
          parserIsSet opts q = false ∧ parserGetValue opts q = []
            ∧ parserGetValueList opts q d = [])
      ∧ (∀ x, opts.find? (fun o => declEq o q) = some x →
          parserIsSet opts q = x.isSet ∧ parserGetValue opts q = x.getValue
            ∧ parserGetValueList opts q d = splitString x.getValue d) := by
  have hfind : opts.find? (fun o => declEq o q) = opts.find? (fun o => declEq o q') := by
    apply find?_congr_triple
    intro a
    simp [declEq, ha, hb, hc]
  refine ⟨?_, ?_, ?_, ?_, ?_⟩
  · simp [parserIsSet, hfind]
  · simp [parserGetValue, hfind]
  · simp [parserGetValueList, hfind]
  · intro hmiss
    have hnone : opts.find? (fun o => declEq o q) = none := by
      rw [List.find?_eq_none]
      intro x hx
      simp [hmiss x hx]
    simp [parserIsSet, parserGetValue, parserGetValueList, hnone]
  · intro x hx
    simp [parserIsSet, parserGetValue, parserGetValueList, hx]

/-- Witness for C7: a freshly constructed `-f`/`--file` declaration (unset,
no value) resolves to the live, matched instance held by the parser. -/
theorem C7_query_by_declaration_witness :
    parserIsSet [{ fileOpt with set := true, value := "in.txt".toList }] fileOpt
        = parserIsSet [{ fileOpt with set := true, value := "in.txt".toList }]
            ({ fileOpt with set := true, value := "in.txt".toList })
      ∧ parserGetValue [{ fileOpt with set := true, value := "in.txt".toList }] fileOpt
          = parserGetValue [{ fileOpt with set := true, value := "in.txt".toList }]
              ({ fileOpt with set := true, value := "in.txt".toList })
      ∧ parserGetValueList [{ fileOpt with set := true, value := "in.txt".toList }] fileOpt
            ",".toList
          = parserGetValueList [{ fileOpt with set := true, value := "in.txt".toList }]
              ({ fileOpt with set := true, value := "in.txt".toList }) ",".toList
      ∧ ((∀ x ∈ [{ fileOpt with set := true, value := "in.txt".toList }],
            declEq x fileOpt = false) →
          parserIsSet [{ fileOpt with set := true, value := "in.txt".toList }] fileOpt = false
            ∧ parserGetValue [{ fileOpt with set := true, value := "in.txt".toList }] fileOpt
                = []
            ∧ parserGetValueList [{ fileOpt with set := true, value := "in.txt".toList }]
                fileOpt ",".toList = [])
      ∧ (∀ x, List.find? (fun o => declEq o fileOpt)
            [{ fileOpt with set := true, value := "in.txt".toList }] = some x →
          parserIsSet [{ fileOpt with set := true, value := "in.txt".toList }] fileOpt
              = x.isSet
            ∧ parserGetValue [{ fileOpt with set := true, value := "in.txt".toList }] fileOpt
                = x.getValue
            ∧ parserGetValueList [{ fileOpt with set := true, value := "in.txt".toList }]
                fileOpt ",".toList = splitString x.getValue ",".toList) :=
  C7_query_by_declaration [{ fileOpt with set := true, value := "in.txt".toList }]
    fileOpt ({ fileOpt with set := true, value := "in.txt".toList }) ",".toList
    rfl rfl rfl

theorem getlineSplitAux_nil (fuel : Nat) (d : Char) : getlineSplitAux fuel [] d = [] := by
  cases fuel <;> rfl

theorem takeWhile_ne_self (c : Char) :
    ∀ s : Str, (∀ x ∈ s, x ≠ c) → s.takeWhile (fun x => x != c) = s := by
  intro s h
  induction s with
  | nil => rfl
  | cons a l ih =>
    have ha : (a != c) = true := by
      simp only [bne_iff_ne, ne_eq]
      exact h a (by simp)
    simp [List.takeWhile_cons, ha, ih (fun x hx => h x (by simp [hx]))]

/-- C8: `getValueList` splits on the first character of the delimiter
string only, falling back to `','` when the delimiter is empty; a string
without the delimiter character splits to the one-element list holding
it (so `"a"` yields `["a"]`), `"a,b,c"` with the default delimiter yields
`["a", "b", "c"]`, and a query for a declaration never registered yields
`[]`. -/
theorem C8_getValueList_split
    (s : Str) (c : Char) (cs : Str) (opts : List CommandLineOption)
    (q : CommandLineOption) (d : Str)
    (hs : s ≠ []) (hnc : ∀ x ∈ s, x ≠ c)
    (hmiss : ∀ x ∈ opts, declEq x q = false) :
    splitString s (c :: cs) = splitString s [c]
      ∧ splitString s [] = splitString s [',']
      ∧ splitString s [c] = [s]
      ∧ splitString "a,b,c".toList ",".toList = ["a".toList, "b".toList, "c".toList]
      ∧ parserGetValueList opts q d = [] := by
  refine ⟨rfl, rfl, ?_, by decide, ?_⟩
  · cases s with
    | nil => exact absurd rfl hs
    | cons a l =>
      show getlineSplitAux (a :: l).length (a :: l) c = [a :: l]
      simp only [List.length_cons]
      simp only [getlineSplitAux]
      rw [takeWhile_ne_self c (a :: l) hnc]
      rw [List.drop_eq_nil_of_le (by simp)]
      rw [getlineSplitAux_nil]
  · have hnone : opts.find? (fun o => declEq o q) = none := by
      rw [List.find?_eq_none]
      intro x hx
      simp [hmiss x hx]
    simp [parserGetValueList, hnone]

/-- Witness for C8: splitting the one-element value `"a"` on the default
comma delimiter, with an unregistered query declaration. -/
theorem C8_getValueList_split_witness :
    splitString "a".toList (',' :: []) = splitString "a".toList [',']
      ∧ splitString "a".toList [] = splitString "a".toList [',']
      ∧ splitString "a".toList [','] = ["a".toList]
      ∧ splitString "a,b,c".toList ",".toList = ["a".toList, "b".toList, "c".toList]
      ∧ parserGetValueList [] fileOpt ",".toList = [] :=
  C8_getValueList_split "a".toList ',' [] [] fileOpt ",".toList
    (by decide) (by decide) (by decide)

theorem lastSpaceFrom_le (s : Str) : ∀ j p : Nat, lastSpaceFrom s j = some p → p ≤ j := by
  intro j
  induction j with
  | zero =>
    intro p h
    unfold lastSpaceFrom at h
    split at h
    · simp only [Option.some.injEq] at h
      omega
    · simp at h
  | succ j ih =>
    intro p h
    unfold lastSpaceFrom at h
    split at h
    · simp only [Option.some.injEq] at h
      omega
    · have := ih p h
      omega

theorem findLastSpace_lt (s : Str) (pos p : Nat) (h : findLastSpace s pos = some p) :
    p < s.length := by
  unfold findLastSpace at h
  split at h
  · simp at h
  · rename_i hne
    have hp := lastSpaceFrom_le s _ p h
    have hlen : 1 ≤ s.length := by
      cases s with
      | nil => simp at hne
      | cons a l => simp
    have hmin : min pos (s.length - 1) ≤ s.length - 1 := Nat.min_le_right _ _
    omega

/-- Once the guard holds and `find_last_of` fails, the loop body maps the
description to itself, so no iteration budget suffices: the C++ `while`
loop runs forever. -/
theorem wrapLoop_fixed_none (a : Nat) (d : Str)
    (hg : wrapGuard a d = true) (hstep : wrapStep a d = (d, d)) :
    ∀ fuel : Nat, wrapLoop fuel a d = none := by
  intro fuel
  induction fuel with
  | zero => simp [wrapLoop, hg]
  | succ f ih => simp [wrapLoop, hg, hstep, ih]

/-- C9 counterexample: the claim "rendering terminates for every
description string" is false on the code.  For the concrete non-separator
option with a 100-character spaceless description (`spacelessOpt`,
column width 0), `find_last_of` returns `npos` while the guard holds,
`substr(npos + 1) = substr(0)` leaves the description unchanged, and the
wrap loop never terminates: rendering fails for every iteration budget. -/
theorem C9_render_divergence : renderDiverges spacelessOpt := by
  intro fuel
  have hg : wrapGuard spacelessOpt.addSpace (renderDesc spacelessOpt) = true := by decide
  have hstep : wrapStep spacelessOpt.addSpace (renderDesc spacelessOpt)
      = (renderDesc spacelessOpt, renderDesc spacelessOpt) := by decide
  have hloop := wrapLoop_fixed_none spacelessOpt.addSpace (renderDesc spacelessOpt)
    hg hstep fuel
  have hns : spacelessOpt.isSeparator = false := rfl
  simp [renderOption, hloop, hns]

/-- The wrap loop terminates whenever every suffix of the description
still violating the 80-column budget has a space at or before the search
bound: each iteration then breaks at such a space and strictly shortens
the description. -/
theorem wrapLoop_terminates (a : Nat) :
    ∀ (fuel : Nat) (d : Str), d.length < fuel →
      (∀ k, k ≤ d.length → wrapGuard a (d.drop k) = true →
        findLastSpace (d.drop k) (wrapBound a) ≠ none) →
      ∃ ls, wrapLoop fuel a d = some ls := by
  intro fuel
  induction fuel with
  | zero =>
    intro d h _
    omega
  | succ f ih =>
    intro d hlen hsp
    by_cases hg : wrapGuard a d = true
    · have h0 : findLastSpace d (wrapBound a) ≠ none := by
        have := hsp 0 (Nat.zero_le _) (by rwa [List.drop_zero])
        rwa [List.drop_zero] at this
      cases hfs : findLastSpace d (wrapBound a) with
      | none => exact absurd hfs h0
      | some p =>
        have hplt := findLastSpace_lt d (wrapBound a) p hfs
        have hstep : wrapStep a d = (d.take p, d.drop (p + 1)) := by
          unfold wrapStep
          rw [hfs]
        have hsub : ∀ k, k ≤ (d.drop (p + 1)).length →
            wrapGuard a ((d.drop (p + 1)).drop k) = true →
            findLastSpace ((d.drop (p + 1)).drop k) (wrapBound a) ≠ none := by
          intro k hk hgk
          rw [List.drop_drop] at hgk ⊢
          refine hsp (p + 1 + k) ?_ hgk
          simp only [List.length_drop] at hk
          omega
        obtain ⟨ls, hls⟩ := ih (d.drop (p + 1))
          (by simp only [List.length_drop]; omega) hsub
        refine ⟨d.take p :: ls, ?_⟩
        simp only [wrapLoop, hg, if_true, hstep]
        rw [hls]
        rfl
    · exact ⟨[d], by simp [wrapLoop, hg]⟩

/-- C9 (amended): rendering a non-separator option terminates whenever
every suffix of its (annotated) description that still exceeds the
80-column budget has a space at or before the `find_last_of` search
bound — in particular whenever the description fits the budget, and for
ordinary space-separated text; the loop hard-wraps by breaking at the
last such space and the continuation lines are re-indented by
`renderOption`.  (Without the space condition the loop need not
terminate, see the counterexample.) -/
theorem C9_render_terminates
    (o : CommandLineOption) (hsep : o.isSeparator = false)
    (hsp : ∀ k, k ≤ (renderDesc o).length →
      wrapGuard o.addSpace ((renderDesc o).drop k) = true →
      findLastSpace ((renderDesc o).drop k) (wrapBound o.addSpace) ≠ none) :
    ∃ ls, renderOption ((renderDesc o).length + 1) o = some ls := by
  obtain ⟨ls, hls⟩ := wrapLoop_terminates o.addSpace ((renderDesc o).length + 1)
    (renderDesc o) (by omega) hsp
  unfold renderOption
  rw [if_neg (by simp [hsep]), hls]
  exact ⟨_, rfl⟩

/-- Witness for C9 (amended): the long space-separated description of
`wrapOpt` wraps and rendering terminates. -/
theorem C9_render_terminates_witness :
    wrapOpt.isSeparator = false
      ∧ (∀ k, k ≤ (renderDesc wrapOpt).length →
          wrapGuard wrapOpt.addSpace ((renderDesc wrapOpt).drop k) = true →
          findLastSpace ((renderDesc wrapOpt).drop k) (wrapBound wrapOpt.addSpace) ≠ none)
      ∧ ∃ ls, renderOption ((renderDesc wrapOpt).length + 1) wrapOpt = some ls :=
  ⟨rfl, by decide, C9_render_terminates wrapOpt rfl (by decide)⟩
